import Mathlib

/-!
Verification of the document-reconstruction engine of `src/main.py`
(the body of `create_google_doc_endpoint`, lines 192-309).

The engine walks a list of pages (each an ordered list of loosely typed
structural elements), and per page emits an ordered batch of positional
edit commands against a cursor `current_index`.  Table elements are
decomposed from a markdown-it token stream; everything the external
markdown parser and the remote Google Docs service do is abstracted as
oracle parameters (`parse`, `report`).

Python dictionaries with optional keys are modelled as a structure of
`Option` fields (`element.get(k)` is the field itself, `element.get(k, d)`
is `(field).getD d`).  Python strings are modelled as Lean `String`
values; the three Python string methods the engine uses
(`str.replace('&nbsp;', ' ')`, `str.strip()`, `str.upper()`) are
modelled explicitly below so that every definition evaluates by kernel
reduction.
-/

/-- A markdown-it token as consumed by the table branch (lines 226-232).
Only the token's `type` and its inline `content` are inspected. -/
structure Token where
  type : String
  content : String
  deriving DecidableEq, Repr

/-- One structural element of a page (`page.structure` entries, arbitrary
JSON dictionaries).  `none` models a missing key. -/
structure Element where
  type : Option String
  content : Option String
  level : Option Nat
  align : Option String
  spacingAfter : Option String
  deriving DecidableEq, Repr

/-- One Google Docs batchUpdate request, as built by lines 214, 241, 249,
256, 280, 283-287 and 292.  `updateParagraphStyle` carries the three
optional style fields; a field is `none` exactly when the Python code
leaves it out of `fields`. -/
inductive DocCommand where
  | insertText (text : String) (index : Nat)
  | insertTable (rows : Nat) (columns : Nat) (index : Nat)
  | insertPageBreak (index : Nat)
  | updateParagraphStyle (startIndex : Nat) (endIndex : Nat)
      (namedStyleType : Option String) (alignment : Option String)
      (spaceBelow : Option Nat)
  | updateTextStyle (startIndex : Nat) (endIndex : Nat) (fontSize : Nat)
  deriving DecidableEq, Repr

/-- Python `content.replace('&nbsp;', ' ')` (line 219): replace every
non-overlapping occurrence of `&nbsp;`, scanning left to right. -/
def replaceNbspAux : List Char → List Char
  | '&' :: 'n' :: 'b' :: 's' :: 'p' :: ';' :: rest => ' ' :: replaceNbspAux rest
  | c :: rest => c :: replaceNbspAux rest
  | [] => []

/-- `content.replace('&nbsp;', ' ')` on `String`. -/
def replaceNbsp (s : String) : String := ⟨replaceNbspAux s.data⟩

/-- The whitespace set of Python `str.strip()` (ASCII part). -/
def pyWhitespace (c : Char) : Bool :=
  c == ' ' || c == '\t' || c == '\n' || c == '\r' || c == '\x0b' || c == '\x0c'

/-- Python `content.strip()` (line 220). -/
def strip (s : String) : String :=
  ⟨((s.data.dropWhile pyWhitespace).reverse.dropWhile pyWhitespace).reverse⟩

/-- Python `str.upper()` (line 264, ASCII). -/
def upper (s : String) : String := ⟨s.data.map Char.toUpper⟩

/-- One step of the token loop of lines 226-232: the accumulator is
`(rows_data, current_row)`.  `tr_open` resets the current row, `tr_close`
appends it to `rows_data`, `inline` appends the token content to the
current row; all other token types are ignored. -/
def tableRowsStep (acc : List (List String) × List String) (t : Token) :
    List (List String) × List String :=
  if t.type = "tr_open" then (acc.1, [])
  else if t.type = "tr_close" then (acc.1 ++ [acc.2], acc.2)
  else if t.type = "inline" then (acc.1, acc.2 ++ [t.content])
  else acc

/-- Lines 224-234: decompose the token stream into `rows_data`, then drop
rows with zero cells (`rows_data = [r for r in rows_data if r]`). -/
def rowsData (tokens : List Token) : List (List String) :=
  ((tokens.foldl tableRowsStep ([], [])).1).filter (fun r => !r.isEmpty)

/-- Line 238: `num_cols = max(len(r) for r in rows_data) if rows_data else 0`. -/
def numCols (rows_data : List (List String)) : Nat :=
  (rows_data.map List.length).foldl max 0

/-- The inner cell loop of lines 246-249 for one row: `c` is the running
column index, `base = table_start_index + 4 + r * (num_cols * 2 + 1)`.
A cell command is appended only when the cell text is non-empty
(`if cell_text:`). -/
def cellRow (base : Nat) (c : Nat) : List String → List DocCommand
  | [] => []
  | cell_text :: rest =>
    (if cell_text = "" then [] else
      [DocCommand.insertText cell_text (base + c * 2)]) ++ cellRow base (c + 1) rest

/-- The outer cell loop of lines 245-249: `r` is the running row index.
Produces `cell_requests` in row-major order (the code then appends
`reversed(cell_requests)` to the batch, line 251). -/
def cellRequests (table_start_index num_cols : Nat) (r : Nat) :
    List (List String) → List DocCommand
  | [] => []
  | row :: rest =>
    cellRow (table_start_index + 4 + r * (num_cols * 2 + 1)) 0 row ++
      cellRequests table_start_index num_cols (r + 1) rest

/-- Lines 264-268: `align = element.get('align', 'left').upper()`, then
`LEFT` is mapped to `START` and `RIGHT` to `END`. -/
def alignValue (align : Option String) : String :=
  let a := upper (align.getD "left")
  if a = "LEFT" then "START" else if a = "RIGHT" then "END" else a

/-- Lines 270-272: the `alignment` field is set exactly when the mapped
value is one of `START`, `CENTER`, `END`, `JUSTIFIED`. -/
def alignmentField (align : Option String) : Option String :=
  let a := alignValue align
  if a = "START" ∨ a = "CENTER" ∨ a = "END" ∨ a = "JUSTIFIED" then some a else none

/-- Line 208: `spacing_map = {'small': 8, 'medium': 12, 'large': 16}`,
read as a lookup (`spacing_key in spacing_map`, line 275). -/
def spacing_map (k : String) : Option Nat :=
  if k = "small" then some 8
  else if k = "medium" then some 12
  else if k = "large" then some 16
  else none

/-- Lines 274-277: the `spaceBelow` field is set exactly when
`element.get('spacingAfter')` is a key of `spacing_map`. -/
def spaceBelowField (spacingAfter : Option String) : Option Nat :=
  match spacingAfter with
  | some k => spacing_map k
  | none => none

/-- Lines 260-262: the `namedStyleType` field, set exactly for headings,
with `f"HEADING_{element.get('level', 1)}"`. -/
def headingNS (element : Element) : Option String :=
  if element.type = some "heading" then
    some ("HEADING_" ++ toString (element.level.getD 1))
  else none

/-- Lines 217-289, the per-element body of the page loop.  Returns the
commands appended for this element together with the updated
`current_index`.  `parse` abstracts `md.parse` (the external markdown-it
tokenizer). -/
def compileElement (parse : String → List Token) (current_index : Nat)
    (element : Element) : List DocCommand × Nat :=
  let content := replaceNbsp (element.content.getD "")
  if strip content = "" then ([], current_index)
  else if element.type = some "table" then
    let rows_data := rowsData (parse content)
    if rows_data = [] then ([], current_index)
    else
      let num_rows := rows_data.length
      let num_cols := numCols rows_data
      if num_cols = 0 then ([], current_index)
      else
        (DocCommand.insertTable num_rows num_cols current_index ::
            (cellRequests current_index num_cols 0 rows_data).reverse,
          current_index)
  else
    let text_to_insert := content ++ "\n"
    let endIdx := current_index + text_to_insert.length
    let ns := headingNS element
    let al := alignmentField element.align
    let sb := spaceBelowField element.spacingAfter
    let styleCmds : List DocCommand :=
      if ns.isSome ∨ al.isSome ∨ sb.isSome then
        [DocCommand.updateParagraphStyle current_index endIdx ns al sb]
      else []
    (DocCommand.insertText text_to_insert current_index ::
        (styleCmds ++ [DocCommand.updateTextStyle current_index endIdx 10]),
      endIdx)

/-- The cursor advance `compileElement` performs: zero for skipped
elements and for tables (lines 252-253), the inserted text's length
(trailing newline included) otherwise (line 289). -/
def elemAdvance (element : Element) : Nat :=
  let content := replaceNbsp (element.content.getD "")
  if strip content = "" then 0
  else if element.type = some "table" then 0
  else (content ++ "\n").length

/-- The element loop of lines 217-289: threads `current_index` through the
page's elements and concatenates their commands. -/
def compileElems (parse : String → List Token) (current_index : Nat) :
    List Element → List DocCommand × Nat
  | [] => ([], current_index)
  | element :: rest =>
    let r := compileElement parse current_index element
    let s := compileElems parse r.2 rest
    (r.1 ++ s.1, s.2)

/-- Lines 211-292, one page: the unconditional leading newline insert
(lines 214-215), then the elements, then — when this is not the last
page — an `insertPageBreak` at the current cursor (lines 291-292; note
the code does not advance `current_index` for the page break). -/
def compilePage (parse : String → List Token) (current_index : Nat)
    (elements : List Element) (isLast : Bool) : List DocCommand × Nat :=
  let er := compileElems parse (current_index + 1) elements
  let requests := DocCommand.insertText "\n" current_index :: er.1
  if isLast then (requests, er.2)
  else (requests ++ [DocCommand.insertPageBreak er.2], er.2)

/-- Lines 207 and 210-299, the whole document: pages are compiled in
order; after a non-empty batch is submitted the cursor is re-read from
the remote service (lines 294-299), modelled by the oracle `report`
(`report i` is the value `doc_content['body']['content'][-1]['endIndex'] - 1`
the service returns after page `i`'s batch).  The result records each
page's starting cursor together with its batch, plus the final cursor. -/
def compileDoc (parse : String → List Token) (report : Nat → Nat) :
    Nat → Nat → List (List Element) → List (Nat × List DocCommand) × Nat
  | _, current_index, [] => ([], current_index)
  | i, current_index, page :: rest =>
    let pr := compilePage parse current_index page rest.isEmpty
    let next_index := if pr.1.isEmpty then pr.2 else report i
    let r := compileDoc parse report (i + 1) next_index rest
    ((current_index, pr.1) :: r.1, r.2)

/-- The offset (location / startIndex) a command addresses. -/
def cmdIndex : DocCommand → Nat
  | .insertText _ i => i
  | .insertTable _ _ i => i
  | .insertPageBreak i => i
  | .updateParagraphStyle s _ _ _ _ => s
  | .updateTextStyle s _ _ => s

/-- Recognize an `insertPageBreak` command. -/
def isPageBreak : DocCommand → Bool
  | .insertPageBreak _ => true
  | _ => false

/-- Recognize an `insertTable` command. -/
def isInsertTable : DocCommand → Bool
  | .insertTable _ _ _ => true
  | _ => false

/-- All `updateParagraphStyle` commands of a batch, as
`(startIndex, endIndex, namedStyleType, alignment, spaceBelow)` tuples. -/
def paraStyles (cmds : List DocCommand) :
    List (Nat × Nat × Option String × Option String × Option Nat) :=
  cmds.filterMap fun c =>
    match c with
    | .updateParagraphStyle s t ns al sb => some (s, t, ns, al, sb)
    | _ => none

/-- The number of characters a command inserts into the remote document:
an `insertText` inserts its text, a page break inserts one page-break
character.  A table insertion's length is determined by the remote
service's serialization and is not locally computable; it is irrelevant
here because every statement using this function excludes tables.
Style updates insert nothing. -/
def insertedLen : DocCommand → Nat
  | .insertText t _ => t.length
  | .insertPageBreak _ => 1
  | _ => 0

/-- Total number of characters a batch inserts. -/
def batchInsertedLen (b : List DocCommand) : Nat := (b.map insertedLen).sum

/-- Total number of characters all compiled batches insert. -/
def totalInsertedLen (pages : List (Nat × List DocCommand)) : Nat :=
  (pages.map fun p => batchInsertedLen p.2).sum

/-- The cursor advance the compiler tracks locally across one page: the
leading newline plus each inserted text's length.  (The code never
advances `current_index` for a page break, so `isLast` is irrelevant to
the returned cursor.) -/
def pageLocalAdvance (parse : String → List Token) (elements : List Element) : Nat :=
  (compilePage parse 0 elements true).2

/-- The claim's description of one row's cell commands: for every column
of the row, a command for the cell when it is non-empty, at offset
`table_start + 4 + row * (cols * 2 + 1) + col * 2`, columns in order. -/
def specRowCmds (table_start cols row : Nat) (cells : List String) : List DocCommand :=
  (List.range cells.length).filterMap fun col =>
    if cells.getD col "" = "" then none
    else some (DocCommand.insertText (cells.getD col "")
      (table_start + 4 + row * (cols * 2 + 1) + col * 2))

/-- The claim's description of a grid's cell commands, rows in row-major
order. -/
def specCellCmds (table_start cols : Nat) (grid : List (List String)) : List DocCommand :=
  ((List.range grid.length).map fun row =>
    specRowCmds table_start cols row (grid.getD row [])).flatten

/-- A markdown-it oracle that tokenizes nothing (no table rows). -/
def emptyParse : String → List Token := fun _ => []

/-- The token stream markdown-it produces for the 2-by-2 table
`[["A", "B"], ["C", "D"]]`, restricted to the token types the engine
inspects (other structural tokens are ignored by lines 226-232; two are
kept here to exercise the catch-all branch). -/
def demoTokens : List Token :=
  [⟨"table_open", ""⟩,
   ⟨"tr_open", ""⟩, ⟨"inline", "A"⟩, ⟨"inline", "B"⟩, ⟨"tr_close", ""⟩,
   ⟨"tr_open", ""⟩, ⟨"inline", "C"⟩, ⟨"inline", "D"⟩, ⟨"tr_close", ""⟩,
   ⟨"table_close", ""⟩]

/-- A markdown-it oracle returning `demoTokens` (scenario B). -/
def demoParse : String → List Token := fun _ => demoTokens

/-- A markdown-it oracle for markdown that tokenizes into no table rows
(an `inline` token with no enclosing `tr_close` never reaches `rows_data`). -/
def malformedParse : String → List Token :=
  fun _ => [⟨"paragraph_open", ""⟩, ⟨"inline", "| not a table |"⟩, ⟨"paragraph_close", ""⟩]

/-- Scenario A's element: a paragraph `"Hello"`, no alignment, no spacing. -/
def helloElem : Element := ⟨some "paragraph", some "Hello", none, none, none⟩

/-- Scenario B's element: a table with the 2-by-2 markdown grid. -/
def tableElem : Element :=
  ⟨some "table", some "| A | B |\n| --- | --- |\n| C | D |", none, none, none⟩

/-- Scenario C's element: a level-2 heading `"Title"`, centered, large spacing. -/
def titleElem : Element := ⟨some "heading", some "Title", some 2, some "center", some "large"⟩

/-- A plain paragraph with no alignment and no spacing declared. -/
def plainElem : Element := ⟨some "paragraph", some "x", none, none, none⟩

/-- An element whose content is whitespace around a `&nbsp;` escape. -/
def nbspElem : Element := ⟨some "paragraph", some " &nbsp; ", none, none, none⟩

/-- A table element whose markdown the parser cannot tokenize into rows. -/
def badTableElem : Element := ⟨some "table", some "| not a table |", none, none, none⟩

/-- A two-page document with no table elements: page 1 holds the `"Hello"`
paragraph, page 2 is empty. -/
def pagesNoTable : List (List Element) := [[helloElem], []]

/-- A one-page document holding only the `"Hello"` paragraph (scenario A). -/
def pageA : List (List Element) := [[helloElem]]

/-- A remote-service oracle reporting end offset 42 after every batch. -/
def rep42 : Nat → Nat := fun _ => 42

/-! ## Helper lemmas on the cell-request loops -/

theorem cellRow_eq_range (cells : List String) : ∀ base c : Nat,
    cellRow base c cells = (List.range cells.length).filterMap (fun j =>
      if cells.getD j "" = "" then none
      else some (DocCommand.insertText (cells.getD j "") (base + (c + j) * 2))) := by
  induction cells with
  | nil => intro base c; simp [cellRow]
  | cons s rest ih =>
    intro base c
    have htail : ((List.range rest.length).filterMap fun j =>
        if rest.getD j "" = "" then none
        else some (DocCommand.insertText (rest.getD j "") (base + (c + 1 + j) * 2))) =
        (List.range rest.length).filterMap ((fun j =>
          if (s :: rest).getD j "" = "" then none
          else some (DocCommand.insertText ((s :: rest).getD j "")
            (base + (c + j) * 2))) ∘ Nat.succ) := by
      congr 1
      funext j
      have hcj : c + 1 + j = c + (j + 1) := by omega
      simp [Function.comp, List.getD_cons_succ, hcj]
    rw [cellRow, ih base (c + 1), htail, List.length_cons, List.range_succ_eq_map,
      List.filterMap_cons]
    by_cases hs : s = "" <;> simp [hs, List.filterMap_map]

theorem cellRequests_eq_spec_aux (g : List (List String)) : ∀ t k r : Nat,
    cellRequests t k r g = ((List.range g.length).map fun j =>
      specRowCmds t k (r + j) (g.getD j [])).flatten := by
  induction g with
  | nil => intro t k r; simp [cellRequests]
  | cons row rest ih =>
    intro t k r
    rw [cellRequests, ih t k (r + 1), List.length_cons, List.range_succ_eq_map,
      List.map_cons, List.flatten_cons, List.map_map]
    congr 1
    · rw [cellRow_eq_range, specRowCmds]
      simp only [List.getD_cons_zero]
      have hfun : (fun j => if row.getD j "" = "" then none
          else some (DocCommand.insertText (row.getD j "")
            (t + 4 + r * (k * 2 + 1) + (0 + j) * 2))) =
          (fun col => if row.getD col "" = "" then none
          else some (DocCommand.insertText (row.getD col "")
            (t + 4 + r * (k * 2 + 1) + col * 2))) := by
        funext j
        simp [Nat.zero_add]
      rw [hfun]
      simp
    · have hfun : (fun j => specRowCmds t k (r + 1 + j) (rest.getD j [])) =
          ((fun j => specRowCmds t k (r + j) ((row :: rest).getD j [])) ∘ Nat.succ) := by
        funext j
        have hrj : r + 1 + j = r + (j + 1) := by omega
        simp [Function.comp, List.getD_cons_succ, hrj]
      rw [hfun]

theorem cellRequests_eq_spec (g : List (List String)) (t k : Nat) :
    cellRequests t k 0 g = specCellCmds t k g := by
  rw [cellRequests_eq_spec_aux, specCellCmds]
  have hfun : (fun j => specRowCmds t k (0 + j) (g.getD j [])) =
      (fun row => specRowCmds t k row (g.getD row [])) := by
    funext j
    simp [Nat.zero_add]
  rw [hfun]

theorem cellRow_mem_lb (cells : List String) : ∀ base c : Nat, ∀ cmd ∈ cellRow base c cells,
    base + c * 2 ≤ cmdIndex cmd := by
  induction cells with
  | nil => intro base c cmd h; simp [cellRow] at h
  | cons s rest ih =>
    intro base c cmd h
    rw [cellRow] at h
    rcases List.mem_append.mp h with h1 | h2
    · by_cases hs : s = ""
      · simp [hs] at h1
      · simp [hs] at h1
        simp [h1, cmdIndex]
    · have := ih base (c + 1) cmd h2
      omega

theorem cellRow_mem_ub (cells : List String) : ∀ base c : Nat, ∀ cmd ∈ cellRow base c cells,
    cmdIndex cmd < base + (c + cells.length) * 2 := by
  induction cells with
  | nil => intro base c cmd h; simp [cellRow] at h
  | cons s rest ih =>
    intro base c cmd h
    rw [cellRow] at h
    rcases List.mem_append.mp h with h1 | h2
    · by_cases hs : s = ""
      · simp [hs] at h1
      · simp [hs] at h1
        subst h1
        show base + c * 2 < base + (c + (s :: rest).length) * 2
        simp only [List.length_cons]
        omega
    · have := ih base (c + 1) cmd h2
      simp only [List.length_cons]
      omega

theorem cellRow_mem_shape (cells : List String) : ∀ base c : Nat, ∀ cmd ∈ cellRow base c cells,
    ∃ s i, cmd = DocCommand.insertText s i := by
  induction cells with
  | nil => intro base c cmd h; simp [cellRow] at h
  | cons s rest ih =>
    intro base c cmd h
    rw [cellRow] at h
    rcases List.mem_append.mp h with h1 | h2
    · by_cases hs : s = ""
      · simp [hs] at h1
      · simp [hs] at h1
        exact ⟨_, _, h1⟩
    · exact ih base (c + 1) cmd h2

theorem cellRow_pairwise (cells : List String) : ∀ base c : Nat,
    (cellRow base c cells).Pairwise (fun a b => cmdIndex a < cmdIndex b) := by
  induction cells with
  | nil => intro base c; simp [cellRow]
  | cons s rest ih =>
    intro base c
    rw [cellRow]
    by_cases hs : s = ""
    · simpa [hs] using ih base (c + 1)
    · simp only [hs, if_neg, List.singleton_append, ite_false]
      refine List.Pairwise.cons ?_ (ih base (c + 1))
      intro b hb
      have := cellRow_mem_lb rest base (c + 1) b hb
      show cmdIndex (DocCommand.insertText s (base + c * 2)) < cmdIndex b
      have hred : cmdIndex (DocCommand.insertText s (base + c * 2)) = base + c * 2 := rfl
      rw [hred]
      omega

theorem cellRequests_mem_lb (g : List (List String)) : ∀ t k r : Nat,
    ∀ cmd ∈ cellRequests t k r g, t + 4 + r * (k * 2 + 1) ≤ cmdIndex cmd := by
  induction g with
  | nil => intro t k r cmd h; simp [cellRequests] at h
  | cons row rest ih =>
    intro t k r cmd h
    rw [cellRequests] at h
    rcases List.mem_append.mp h with h1 | h2
    · have := cellRow_mem_lb row (t + 4 + r * (k * 2 + 1)) 0 cmd h1
      omega
    · have hnext := ih t k (r + 1) cmd h2
      have hmono : r * (k * 2 + 1) ≤ (r + 1) * (k * 2 + 1) :=
        Nat.mul_le_mul_right _ (Nat.le_succ r)
      omega

theorem cellRequests_mem_ub (g : List (List String)) : ∀ t k r : Nat,
    (∀ row ∈ g, row.length ≤ k) →
    ∀ cmd ∈ cellRequests t k r g, cmdIndex cmd < t + 4 + (r + g.length) * (k * 2 + 1) := by
  induction g with
  | nil => intro t k r _ cmd h; simp [cellRequests] at h
  | cons row rest ih =>
    intro t k r hlen cmd h
    rw [cellRequests] at h
    have hrowlen : row.length ≤ k := hlen row (List.mem_cons_self row rest)
    have hsucc : (r + 1) * (k * 2 + 1) = r * (k * 2 + 1) + (k * 2 + 1) := by ring
    rcases List.mem_append.mp h with h1 | h2
    · have hub := cellRow_mem_ub row (t + 4 + r * (k * 2 + 1)) 0 cmd h1
      have hmono : (r + 1) * (k * 2 + 1) ≤ (r + (row :: rest).length) * (k * 2 + 1) := by
        apply Nat.mul_le_mul_right
        simp only [List.length_cons]
        omega
      omega
    · have hub := ih t k (r + 1) (fun q hq => hlen q (List.mem_cons_of_mem row hq)) cmd h2
      have heq : r + 1 + rest.length = r + (row :: rest).length := by
        simp [List.length_cons]
        omega
      rw [heq] at hub
      exact hub

theorem cellRequests_mem_shape (g : List (List String)) : ∀ t k r : Nat,
    ∀ cmd ∈ cellRequests t k r g, ∃ s i, cmd = DocCommand.insertText s i := by
  induction g with
  | nil => intro t k r cmd h; simp [cellRequests] at h
  | cons row rest ih =>
    intro t k r cmd h
    rw [cellRequests] at h
    rcases List.mem_append.mp h with h1 | h2
    · exact cellRow_mem_shape row _ 0 cmd h1
    · exact ih t k (r + 1) cmd h2

theorem cellRequests_pairwise (g : List (List String)) : ∀ t k r : Nat,
    (∀ row ∈ g, row.length ≤ k) →
    (cellRequests t k r g).Pairwise (fun a b => cmdIndex a < cmdIndex b) := by
  induction g with
  | nil => intro t k r _; simp [cellRequests]
  | cons row rest ih =>
    intro t k r hlen
    rw [cellRequests]
    rw [List.pairwise_append]
    refine ⟨cellRow_pairwise row _ 0, ih t k (r + 1) (fun q hq => hlen q (List.mem_cons_of_mem row hq)), ?_⟩
    intro a ha b hb
    have hua := cellRow_mem_ub row (t + 4 + r * (k * 2 + 1)) 0 a ha
    have hlb := cellRequests_mem_lb rest t k (r + 1) b hb
    have hrowlen : row.length ≤ k := hlen row (List.mem_cons_self row rest)
    have hsucc : (r + 1) * (k * 2 + 1) = r * (k * 2 + 1) + (k * 2 + 1) := by ring
    omega

theorem foldl_max_init_le (l : List Nat) : ∀ a : Nat, a ≤ l.foldl max a := by
  induction l with
  | nil => intro a; simp
  | cons b l ih =>
    intro a
    calc a ≤ max a b := Nat.le_max_left a b
    _ ≤ (b :: l).foldl max a := by simpa using ih (max a b)

theorem mem_le_foldl_max (l : List Nat) : ∀ a b : Nat, b ∈ l → b ≤ l.foldl max a := by
  induction l with
  | nil => intro a b h; simp at h
  | cons hd tl ih =>
    intro a b h
    rcases List.mem_cons.mp h with h1 | h2
    · subst h1
      calc b ≤ max a b := Nat.le_max_right a b
      _ ≤ (b :: tl).foldl max a := by simpa using foldl_max_init_le tl (max a b)
    · simpa using ih (max a hd) b h2

theorem length_le_numCols (g : List (List String)) (row : List String) (h : row ∈ g) :
    row.length ≤ numCols g :=
  mem_le_foldl_max (g.map List.length) 0 row.length (List.mem_map_of_mem List.length h)

theorem rowsData_mem_ne_nil (tokens : List Token) (row : List String)
    (h : row ∈ rowsData tokens) : row ≠ [] := by
  rw [rowsData] at h
  have := (List.mem_filter.mp h).2
  simpa [List.isEmpty_iff] using this

theorem numCols_pos (g : List (List String)) (hne : g ≠ [])
    (hrows : ∀ row ∈ g, row ≠ []) : 0 < numCols g := by
  rcases g with _ | ⟨row, rest⟩
  · exact absurd rfl hne
  · have hrow : row ≠ [] := hrows row (List.mem_cons_self row rest)
    have h1 : 1 ≤ row.length := by
      rcases row with _ | _
      · exact absurd rfl hrow
      · simp
    have := length_le_numCols (row :: rest) row (List.mem_cons_self row rest)
    omega

/-! ## Helper lemmas on the compiler -/

theorem compileElement_skip (parse : String → List Token) (ci : Nat) (e : Element)
    (h : strip (replaceNbsp (e.content.getD "")) = "") :
    compileElement parse ci e = ([], ci) := by
  simp [compileElement, h]

theorem compileElement_table_eq (parse : String → List Token) (ci : Nat) (e : Element)
    (ht : e.type = some "table")
    (hc : strip (replaceNbsp (e.content.getD "")) ≠ "")
    (hg : rowsData (parse (replaceNbsp (e.content.getD ""))) ≠ []) :
    compileElement parse ci e =
      (DocCommand.insertTable (rowsData (parse (replaceNbsp (e.content.getD "")))).length
          (numCols (rowsData (parse (replaceNbsp (e.content.getD ""))))) ci ::
        (cellRequests ci (numCols (rowsData (parse (replaceNbsp (e.content.getD ""))))) 0
          (rowsData (parse (replaceNbsp (e.content.getD ""))))).reverse,
       ci) := by
  have h0 : numCols (rowsData (parse (replaceNbsp (e.content.getD "")))) ≠ 0 := by
    have := numCols_pos (rowsData (parse (replaceNbsp (e.content.getD "")))) hg
      (fun row hr => rowsData_mem_ne_nil _ row hr)
    omega
  simp [compileElement, hc, ht, hg, h0]

theorem compileElement_text_eq (parse : String → List Token) (ci : Nat) (e : Element)
    (ht : e.type ≠ some "table")
    (hc : strip (replaceNbsp (e.content.getD "")) ≠ "") :
    compileElement parse ci e =
      (DocCommand.insertText (replaceNbsp (e.content.getD "") ++ "\n") ci ::
        ((if (headingNS e).isSome ∨ (alignmentField e.align).isSome ∨
              (spaceBelowField e.spacingAfter).isSome then
            [DocCommand.updateParagraphStyle ci
              (ci + (replaceNbsp (e.content.getD "") ++ "\n").length)
              (headingNS e) (alignmentField e.align) (spaceBelowField e.spacingAfter)]
          else []) ++
          [DocCommand.updateTextStyle ci
            (ci + (replaceNbsp (e.content.getD "") ++ "\n").length) 10]),
       ci + (replaceNbsp (e.content.getD "") ++ "\n").length) := by
  simp [compileElement, hc, ht]

theorem compileElement_snd (parse : String → List Token) (ci : Nat) (e : Element) :
    (compileElement parse ci e).2 = ci + elemAdvance e := by
  by_cases hc : strip (replaceNbsp (e.content.getD "")) = ""
  · simp [compileElement_skip parse ci e hc, elemAdvance, hc]
  · by_cases ht : e.type = some "table"
    · by_cases hg : rowsData (parse (replaceNbsp (e.content.getD ""))) = []
      · simp [compileElement, hc, ht, hg, elemAdvance]
      · rw [compileElement_table_eq parse ci e ht hc hg]
        simp [elemAdvance, hc, ht]
    · rw [compileElement_text_eq parse ci e ht hc]
      simp [elemAdvance, hc, ht]

theorem compileElement_no_pageBreak (parse : String → List Token) (ci : Nat) (e : Element) :
    ∀ cmd ∈ (compileElement parse ci e).1, isPageBreak cmd = false := by
  intro cmd h
  by_cases hc : strip (replaceNbsp (e.content.getD "")) = ""
  · rw [compileElement_skip parse ci e hc] at h
    simp at h
  · by_cases ht : e.type = some "table"
    · by_cases hg : rowsData (parse (replaceNbsp (e.content.getD ""))) = []
      · simp [compileElement, hc, ht, hg] at h
      · rw [compileElement_table_eq parse ci e ht hc hg] at h
        rcases List.mem_cons.mp h with h | h
        · subst h; rfl
        · obtain ⟨s, i, rfl⟩ :=
            cellRequests_mem_shape _ _ _ _ cmd (List.mem_reverse.mp h)
          rfl
    · rw [compileElement_text_eq parse ci e ht hc] at h
      rcases List.mem_cons.mp h with h | h
      · subst h; rfl
      · rcases List.mem_append.mp h with h | h
        · by_cases hcond : (headingNS e).isSome ∨ (alignmentField e.align).isSome ∨
              (spaceBelowField e.spacingAfter).isSome
          · simp [hcond] at h
            subst h; rfl
          · simp [hcond] at h
        · simp at h
          subst h; rfl

theorem compileElems_snd (parse : String → List Token) (els : List Element) : ∀ ci : Nat,
    (compileElems parse ci els).2 = ci + (els.map elemAdvance).sum := by
  induction els with
  | nil => intro ci; simp [compileElems]
  | cons e rest ih =>
    intro ci
    simp only [compileElems]
    rw [ih, compileElement_snd]
    simp [List.map_cons, List.sum_cons]
    omega

theorem batchInsertedLen_append (a b : List DocCommand) :
    batchInsertedLen (a ++ b) = batchInsertedLen a + batchInsertedLen b := by
  simp [batchInsertedLen]

theorem compileElement_insertedLen (parse : String → List Token) (ci : Nat) (e : Element)
    (ht : e.type ≠ some "table") :
    batchInsertedLen (compileElement parse ci e).1 = elemAdvance e := by
  by_cases hc : strip (replaceNbsp (e.content.getD "")) = ""
  · simp [compileElement_skip parse ci e hc, batchInsertedLen, elemAdvance, hc]
  · rw [compileElement_text_eq parse ci e ht hc]
    by_cases hcond : (headingNS e).isSome ∨ (alignmentField e.align).isSome ∨
        (spaceBelowField e.spacingAfter).isSome
    · simp [hcond, batchInsertedLen, insertedLen, elemAdvance, hc, ht]
    · simp [hcond, batchInsertedLen, insertedLen, elemAdvance, hc, ht]

theorem compileElems_insertedLen (parse : String → List Token) (els : List Element) :
    ∀ ci : Nat, (∀ e ∈ els, e.type ≠ some "table") →
    batchInsertedLen (compileElems parse ci els).1 = (els.map elemAdvance).sum := by
  induction els with
  | nil => intro ci _; simp [compileElems, batchInsertedLen]
  | cons e rest ih =>
    intro ci h
    simp only [compileElems]
    rw [batchInsertedLen_append,
      compileElement_insertedLen parse ci e (h e (List.mem_cons_self e rest)),
      ih _ (fun q hq => h q (List.mem_cons_of_mem e hq))]
    simp

theorem compileElems_no_pageBreak (parse : String → List Token) (els : List Element) :
    ∀ ci : Nat, ∀ cmd ∈ (compileElems parse ci els).1,
    isPageBreak cmd = false := by
  induction els with
  | nil => intro ci cmd h; simp [compileElems] at h
  | cons e rest ih =>
    intro ci cmd h
    simp only [compileElems] at h
    rcases List.mem_append.mp h with h | h
    · exact compileElement_no_pageBreak parse ci e cmd h
    · exact ih _ cmd h

theorem compilePage_batch_true (parse : String → List Token) (ci : Nat) (els : List Element) :
    compilePage parse ci els true =
      (DocCommand.insertText "\n" ci :: (compileElems parse (ci + 1) els).1,
       (compileElems parse (ci + 1) els).2) := by
  simp [compilePage]

theorem compilePage_batch_false (parse : String → List Token) (ci : Nat) (els : List Element) :
    compilePage parse ci els false =
      (DocCommand.insertText "\n" ci :: ((compileElems parse (ci + 1) els).1 ++
        [DocCommand.insertPageBreak (compileElems parse (ci + 1) els).2]),
       (compileElems parse (ci + 1) els).2) := by
  simp [compilePage]

theorem batchInsertedLen_cons (x : DocCommand) (l : List DocCommand) :
    batchInsertedLen (x :: l) = insertedLen x + batchInsertedLen l := by
  simp [batchInsertedLen]

theorem pageLocalAdvance_eq (parse : String → List Token) (els : List Element) :
    pageLocalAdvance parse els = 1 + (els.map elemAdvance).sum := by
  rw [pageLocalAdvance, compilePage_batch_true, compileElems_snd]

theorem compilePage_snd (parse : String → List Token) (ci : Nat) (els : List Element)
    (isLast : Bool) :
    (compilePage parse ci els isLast).2 = ci + pageLocalAdvance parse els := by
  cases isLast
  · rw [compilePage_batch_false, pageLocalAdvance_eq]
    simp [compileElems_snd]
    omega
  · rw [compilePage_batch_true, pageLocalAdvance_eq]
    simp [compileElems_snd]
    omega

theorem compilePage_ne_nil (parse : String → List Token) (ci : Nat) (els : List Element)
    (isLast : Bool) : (compilePage parse ci els isLast).1 ≠ [] := by
  cases isLast
  · rw [compilePage_batch_false]; simp
  · rw [compilePage_batch_true]; simp

theorem compilePage_insertedLen (parse : String → List Token) (ci : Nat) (els : List Element)
    (isLast : Bool) (h : ∀ e ∈ els, e.type ≠ some "table") :
    batchInsertedLen (compilePage parse ci els isLast).1 =
      pageLocalAdvance parse els + (if isLast then 0 else 1) := by
  have h2 := compileElems_insertedLen parse els (ci + 1) h
  have h1 : insertedLen (DocCommand.insertText "\n" ci) = 1 := rfl
  cases isLast
  · rw [compilePage_batch_false, pageLocalAdvance_eq]
    simp only [batchInsertedLen_cons, batchInsertedLen_append, h1, h2]
    have h4 : insertedLen
        (DocCommand.insertPageBreak (compileElems parse (ci + 1) els).2) = 1 := rfl
    have h5 : batchInsertedLen ([] : List DocCommand) = 0 := rfl
    have hite : (if false = true then (0 : Nat) else 1) = 1 := rfl
    rw [h4, h5, hite]
    omega
  · rw [compilePage_batch_true, pageLocalAdvance_eq]
    simp only [batchInsertedLen_cons, h1, h2]
    have hite : (if True then (0 : Nat) else 1) = 0 := if_pos trivial
    rw [hite]
    omega

theorem compilePage_countPB (parse : String → List Token) (ci : Nat) (els : List Element) :
    ((compilePage parse ci els true).1.countP isPageBreak = 0) ∧
    ((compilePage parse ci els false).1.countP isPageBreak = 1) := by
  have hz : (compileElems parse (ci + 1) els).1.countP isPageBreak = 0 :=
    List.countP_eq_zero.mpr (by
      intro a ha
      simp [compileElems_no_pageBreak parse els (ci + 1) a ha])
  constructor
  · rw [compilePage_batch_true]
    simp [List.countP_cons, hz, isPageBreak]
  · rw [compilePage_batch_false]
    simp [List.countP_cons, List.countP_append, hz, isPageBreak]

theorem totalInsertedLen_cons (c : Nat) (b : List DocCommand)
    (rest : List (Nat × List DocCommand)) :
    totalInsertedLen ((c, b) :: rest) = batchInsertedLen b + totalInsertedLen rest := by
  simp [totalInsertedLen]

theorem compileDoc_cons (parse : String → List Token) (report : Nat → Nat)
    (i ci : Nat) (page : List Element) (rest : List (List Element)) :
    compileDoc parse report i ci (page :: rest) =
      ((ci, (compilePage parse ci page rest.isEmpty).1) ::
        (compileDoc parse report (i + 1)
          (if (compilePage parse ci page rest.isEmpty).1.isEmpty then
            (compilePage parse ci page rest.isEmpty).2 else report i) rest).1,
       (compileDoc parse report (i + 1)
          (if (compilePage parse ci page rest.isEmpty).1.isEmpty then
            (compilePage parse ci page rest.isEmpty).2 else report i) rest).2) := by
  simp only [compileDoc]

theorem compileDoc_insertedLen (parse : String → List Token) (report : Nat → Nat)
    (pages : List (List Element)) :
    (∀ p ∈ pages, ∀ e ∈ p, e.type ≠ some "table") → pages ≠ [] →
    ∀ i ci : Nat, totalInsertedLen (compileDoc parse report i ci pages).1 =
      (pages.map (pageLocalAdvance parse)).sum + (pages.length - 1) := by
  induction pages with
  | nil => intro _ h; exact absurd rfl h
  | cons p rest ih =>
    intro hnt _ i ci
    rcases rest with _ | ⟨q, rest2⟩
    · rw [compileDoc_cons]
      simp only [List.isEmpty_nil, totalInsertedLen_cons]
      rw [compilePage_insertedLen parse ci p true (hnt p (List.mem_cons_self p []))]
      simp [totalInsertedLen, compileDoc]
    · rw [compileDoc_cons]
      simp only [List.isEmpty_cons, totalInsertedLen_cons]
      rw [compilePage_insertedLen parse ci p false
        (hnt p (List.mem_cons_self p (q :: rest2)))]
      rw [ih (fun s hs e he => hnt s (List.mem_cons_of_mem p hs) e he) (by simp) _ _]
      simp only [List.map_cons, List.sum_cons, List.length_cons]
      have hite : (if false = true then (0 : Nat) else 1) = 1 := rfl
      rw [hite]
      omega

/-! ## Claim theorems -/

/-- C7: for every element whose content, after replacing the non-breaking
space escape and trimming whitespace, is empty, the compiler emits no
command at all (in particular no insert-text and no insert-table) and
leaves the cursor unchanged (lines 217-220). -/
theorem c7_empty_content_skip :
    ∀ (parse : String → List Token) (current_index : Nat) (e : Element),
      strip (replaceNbsp (e.content.getD "")) = "" →
      compileElement parse current_index e = ([], current_index) :=
  fun parse ci e h => compileElement_skip parse ci e h

/-- C7 witness: the whitespace-and-nbsp element is skipped at cursor 3. -/
theorem c7_witness :
    strip (replaceNbsp (nbspElem.content.getD "")) = "" ∧
    compileElement emptyParse 3 nbspElem = ([], 3) :=
  ⟨by decide, c7_empty_content_skip emptyParse 3 nbspElem (by decide)⟩

/-- C8: a table element whose tokenization yields no table rows, or whose
grid has zero rows or zero columns after discarding rows with zero cells,
produces no command, does not move the cursor, and raises no error (the
compiler is a total function; lines 222-239). -/
theorem c8_empty_grid_skip :
    ∀ (parse : String → List Token) (current_index : Nat) (e : Element),
      e.type = some "table" →
      (rowsData (parse (replaceNbsp (e.content.getD ""))) = [] ∨
        numCols (rowsData (parse (replaceNbsp (e.content.getD "")))) = 0) →
      compileElement parse current_index e = ([], current_index) := by
  intro parse ci e ht hdisj
  by_cases hc : strip (replaceNbsp (e.content.getD "")) = ""
  · exact compileElement_skip parse ci e hc
  · rcases hdisj with hg | h0
    · simp [compileElement, hc, ht, hg]
    · by_cases hg : rowsData (parse (replaceNbsp (e.content.getD ""))) = []
      · simp [compileElement, hc, ht, hg]
      · simp [compileElement, hc, ht, hg, h0]

/-- C8 witness: markdown the tokenizer cannot turn into table rows is
silently skipped at cursor 7. -/
theorem c8_witness :
    badTableElem.type = some "table" ∧
    rowsData (malformedParse (replaceNbsp (badTableElem.content.getD ""))) = [] ∧
    compileElement malformedParse 7 badTableElem = ([], 7) :=
  ⟨rfl, by decide,
    c8_empty_grid_skip malformedParse 7 badTableElem rfl (Or.inl (by decide))⟩

/-- C2: for every table element whose decomposed grid is non-empty (rows > 0
and cols > 0), the compiler emits one insert-table command at the current
cursor followed by exactly one cell-insert command per non-empty cell at
offset `table_start + 4 + row * (cols * 2 + 1) + col * 2` (cols the maximum
row length, short rows contributing nothing for missing trailing columns),
emitted in reverse row-major order with the highest offset first, and the
cursor is not advanced; in particular the 2-by-2 grid `A B / C D` at
table_start 5 yields offsets 9, 11, 14, 16 emitted in order D, C, B, A. -/
theorem c2_table_cell_commands :
    (∀ (parse : String → List Token) (current_index : Nat) (e : Element),
      e.type = some "table" →
      strip (replaceNbsp (e.content.getD "")) ≠ "" →
      rowsData (parse (replaceNbsp (e.content.getD ""))) ≠ [] →
      (compileElement parse current_index e).1 =
        DocCommand.insertTable
            (rowsData (parse (replaceNbsp (e.content.getD "")))).length
            (numCols (rowsData (parse (replaceNbsp (e.content.getD "")))))
            current_index ::
          (specCellCmds current_index
            (numCols (rowsData (parse (replaceNbsp (e.content.getD "")))))
            (rowsData (parse (replaceNbsp (e.content.getD ""))))).reverse ∧
      (compileElement parse current_index e).2 = current_index ∧
      ((compileElement parse current_index e).1.tail.map cmdIndex).Pairwise
        (fun a b => b < a)) ∧
    (compileElement demoParse 5 tableElem).1 =
      [DocCommand.insertTable 2 2 5, DocCommand.insertText "D" 16,
       DocCommand.insertText "C" 14, DocCommand.insertText "B" 11,
       DocCommand.insertText "A" 9] := by
  constructor
  · intro parse ci e ht hc hg
    rw [compileElement_table_eq parse ci e ht hc hg]
    refine ⟨by rw [cellRequests_eq_spec], rfl, ?_⟩
    simp only [List.tail_cons, List.map_reverse]
    rw [List.pairwise_reverse, List.pairwise_map]
    exact cellRequests_pairwise (rowsData (parse (replaceNbsp (e.content.getD "")))) ci
      (numCols (rowsData (parse (replaceNbsp (e.content.getD ""))))) 0
      (fun row hr => length_le_numCols _ row hr)
  · decide

/-- C2 witness: the general statement applied to scenario B's table. -/
theorem c2_witness :
    tableElem.type = some "table" ∧
    strip (replaceNbsp (tableElem.content.getD "")) ≠ "" ∧
    rowsData (demoParse (replaceNbsp (tableElem.content.getD ""))) ≠ [] ∧
    ((compileElement demoParse 5 tableElem).1 =
      DocCommand.insertTable
          (rowsData (demoParse (replaceNbsp (tableElem.content.getD "")))).length
          (numCols (rowsData (demoParse (replaceNbsp (tableElem.content.getD ""))))) 5 ::
        (specCellCmds 5
          (numCols (rowsData (demoParse (replaceNbsp (tableElem.content.getD "")))))
          (rowsData (demoParse (replaceNbsp (tableElem.content.getD ""))))).reverse ∧
      (compileElement demoParse 5 tableElem).2 = 5 ∧
      ((compileElement demoParse 5 tableElem).1.tail.map cmdIndex).Pairwise
        (fun a b => b < a)) :=
  ⟨rfl, by decide, by decide,
    c2_table_cell_commands.1 demoParse 5 tableElem rfl (by decide) (by decide)⟩

/-- C4: for every table element with a non-empty decomposed grid, every
emitted cell-insert command's offset lies strictly inside the interval
`[table_start, table_start + 4 + rows * (cols * 2 + 1))`, and no two
cell-insert commands of the same table target the same offset. -/
theorem c4_cell_offsets :
    ∀ (parse : String → List Token) (current_index : Nat) (e : Element),
      e.type = some "table" →
      strip (replaceNbsp (e.content.getD "")) ≠ "" →
      rowsData (parse (replaceNbsp (e.content.getD ""))) ≠ [] →
      (∀ cmd ∈ (compileElement parse current_index e).1.tail,
        current_index < cmdIndex cmd ∧
        cmdIndex cmd < current_index + 4 +
          (rowsData (parse (replaceNbsp (e.content.getD "")))).length *
            (numCols (rowsData (parse (replaceNbsp (e.content.getD "")))) * 2 + 1)) ∧
      ((compileElement parse current_index e).1.tail.map cmdIndex).Nodup := by
  intro parse ci e ht hc hg
  rw [compileElement_table_eq parse ci e ht hc hg]
  simp only [List.tail_cons]
  constructor
  · intro cmd hcmd
    have hmem := List.mem_reverse.mp hcmd
    have hlb := cellRequests_mem_lb _ ci _ 0 cmd hmem
    have hub := cellRequests_mem_ub _ ci _ 0
      (fun row hr => length_le_numCols _ row hr) cmd hmem
    simp only [Nat.zero_mul, Nat.add_zero] at hlb
    simp only [Nat.zero_add] at hub
    exact ⟨by omega, hub⟩
  · rw [List.map_reverse, List.nodup_reverse]
    have hp := cellRequests_pairwise (rowsData (parse (replaceNbsp (e.content.getD "")))) ci
      (numCols (rowsData (parse (replaceNbsp (e.content.getD ""))))) 0
      (fun row hr => length_le_numCols _ row hr)
    have hmapped := List.pairwise_map.mpr hp
    exact List.Pairwise.imp (fun h => Nat.ne_of_lt h) hmapped

/-- C4 witness: the general statement applied to scenario B's table. -/
theorem c4_witness :
    tableElem.type = some "table" ∧
    strip (replaceNbsp (tableElem.content.getD "")) ≠ "" ∧
    rowsData (demoParse (replaceNbsp (tableElem.content.getD ""))) ≠ [] ∧
    ((∀ cmd ∈ (compileElement demoParse 5 tableElem).1.tail,
        5 < cmdIndex cmd ∧
        cmdIndex cmd < 5 + 4 +
          (rowsData (demoParse (replaceNbsp (tableElem.content.getD "")))).length *
            (numCols (rowsData (demoParse (replaceNbsp (tableElem.content.getD "")))) * 2 + 1)) ∧
      ((compileElement demoParse 5 tableElem).1.tail.map cmdIndex).Nodup) :=
  ⟨rfl, by decide, by decide,
    c4_cell_offsets demoParse 5 tableElem rfl (by decide) (by decide)⟩

/-- C3 counterexample: a plain paragraph with no align and no spacing
declared.  The claim says no paragraph-style command is emitted for it,
but the compiler emits one with `alignment = START`: the absent alignment
defaults to left, left maps to START, and START is never omitted
(lines 264-272). -/
theorem c3_counterexample :
    plainElem.type ≠ some "heading" ∧ plainElem.align = none ∧
    plainElem.spacingAfter = none ∧
    paraStyles (compileElement emptyParse 2 plainElem).1 =
      [(2, 4, none, some "START", none)] := by
  exact ⟨by decide, rfl, rfl, by decide⟩

/-- C3 amended: for every non-empty-content, non-table element a
paragraph-style-update command over the inserted range is emitted when and
only when at least one field is set: the element is a heading
(namedStyleType `HEADING_<level>`), the element's align value — defaulting
to left when absent, uppercased, LEFT mapped to START and RIGHT to END —
lands in {START, CENTER, END, JUSTIFIED} (so an absent or left alignment
yields `alignment = START` rather than omission; only unrecognized align
values omit the field), or the element declares a recognized spacingAfter
(small → 8pt, medium → 12pt, large → 16pt, omitted otherwise); the command
carries exactly the fields so determined; in particular a level-2 heading,
centered, with large spacing yields namedStyleType = HEADING_2,
alignment = CENTER, spaceBelow = 16pt. -/
theorem c3_amended_paragraph_style :
    (∀ (parse : String → List Token) (current_index : Nat) (e : Element),
      strip (replaceNbsp (e.content.getD "")) ≠ "" →
      e.type ≠ some "table" →
      paraStyles (compileElement parse current_index e).1 =
        (if (headingNS e).isSome ∨ (alignmentField e.align).isSome ∨
            (spaceBelowField e.spacingAfter).isSome then
          [(current_index,
            current_index + (replaceNbsp (e.content.getD "") ++ "\n").length,
            headingNS e, alignmentField e.align, spaceBelowField e.spacingAfter)]
        else [])) ∧
    alignmentField none = some "START" ∧
    alignmentField (some "left") = some "START" ∧
    alignmentField (some "right") = some "END" ∧
    alignmentField (some "center") = some "CENTER" ∧
    alignmentField (some "justified") = some "JUSTIFIED" ∧
    spaceBelowField (some "small") = some 8 ∧
    spaceBelowField (some "medium") = some 12 ∧
    spaceBelowField (some "large") = some 16 ∧
    spaceBelowField none = none ∧
    (∀ current_index : Nat,
      paraStyles (compileElement emptyParse current_index titleElem).1 =
        [(current_index, current_index + 6, some "HEADING_2", some "CENTER",
          some 16)]) := by
  refine ⟨?_, by decide, by decide, by decide, by decide, by decide, by decide,
    by decide, by decide, rfl, ?_⟩
  · intro parse ci e hc ht
    rw [compileElement_text_eq parse ci e ht hc]
    by_cases hcond : (headingNS e).isSome ∨ (alignmentField e.align).isSome ∨
        (spaceBelowField e.spacingAfter).isSome
    · simp [hcond, paraStyles]
    · simp [hcond, paraStyles]
  · intro ci
    have h1 : headingNS titleElem = some "HEADING_2" := rfl
    have h2 : alignmentField titleElem.align = some "CENTER" := by decide
    have h3 : spaceBelowField titleElem.spacingAfter = some 16 := rfl
    have h4 : (replaceNbsp (titleElem.content.getD "") ++ "\n").length = 6 := by decide
    rw [compileElement_text_eq emptyParse ci titleElem (by decide) (by decide),
      h1, h2, h3, h4]
    simp [paraStyles]

/-- C3 witness: the amended characterization applied to scenario C's
heading at cursor 2. -/
theorem c3_witness :
    strip (replaceNbsp (titleElem.content.getD "")) ≠ "" ∧
    titleElem.type ≠ some "table" ∧
    paraStyles (compileElement emptyParse 2 titleElem).1 =
      (if (headingNS titleElem).isSome ∨ (alignmentField titleElem.align).isSome ∨
          (spaceBelowField titleElem.spacingAfter).isSome then
        [(2, 2 + (replaceNbsp (titleElem.content.getD "") ++ "\n").length,
          headingNS titleElem, alignmentField titleElem.align,
          spaceBelowField titleElem.spacingAfter)]
      else []) :=
  ⟨by decide, by decide,
    c3_amended_paragraph_style.1 emptyParse 2 titleElem (by decide) (by decide)⟩

/-- C10: compilation is total over arbitrary element dictionaries: missing
content is treated as empty content and skipped; a heading without a level
is styled `HEADING_1`; a missing align is treated exactly like `'left'`;
missing or unrecognized spacingAfter yields no spaceBelow field; an element
whose type is neither `'table'` nor `'heading'` is processed through the
paragraph text-insert branch.  Every branch is a total Lean function — no
element shape raises a missing-key error. -/
theorem c10_defaults_total :
    ∀ (parse : String → List Token) (current_index : Nat),
      (∀ e : Element, e.content = none →
        compileElement parse current_index e = ([], current_index)) ∧
      (∀ (t : Option String) (c : Option String) (l : Option Nat)
          (sp : Option String),
        compileElement parse current_index ⟨t, c, l, none, sp⟩ =
          compileElement parse current_index ⟨t, c, l, some "left", sp⟩) ∧
      (∀ (c : String) (al sp : Option String), strip (replaceNbsp c) ≠ "" →
        paraStyles (compileElement parse current_index
            ⟨some "heading", some c, none, al, sp⟩).1 =
          [(current_index, current_index + (replaceNbsp c ++ "\n").length,
            some "HEADING_1", alignmentField al, spaceBelowField sp)]) ∧
      (∀ s : String, s ≠ "small" → s ≠ "medium" → s ≠ "large" →
        spaceBelowField (some s) = none) ∧
      spaceBelowField none = none ∧
      (∀ (t : String) (c : Option String) (l : Option Nat)
          (al sp : Option String), t ≠ "table" → t ≠ "heading" →
        compileElement parse current_index ⟨some t, c, l, al, sp⟩ =
          compileElement parse current_index ⟨some "paragraph", c, l, al, sp⟩) := by
  intro parse ci
  refine ⟨?_, ?_, ?_, ?_, rfl, ?_⟩
  · intro e h
    apply compileElement_skip
    rw [h]
    rfl
  · intro t c l sp
    rfl
  · intro c al sp hc
    have hc' : strip (replaceNbsp ((Element.mk (some "heading") (some c) none al
        sp).content.getD "")) ≠ "" := by simpa using hc
    rw [compileElement_text_eq parse ci ⟨some "heading", some c, none, al, sp⟩
      (fun h => absurd (Option.some.inj h) (by decide)) hc']
    have h1 : headingNS ⟨some "heading", some c, none, al, sp⟩ =
        some "HEADING_1" := by
      have hstr : "HEADING_" ++ toString (1 : Nat) = "HEADING_1" := by decide
      simp [headingNS, hstr]
    rw [h1]
    simp [paraStyles]
  · intro s h1 h2 h3
    simp [spaceBelowField, spacing_map, h1, h2, h3]
  · intro t c l al sp h1 h2
    by_cases hc : strip (replaceNbsp (c.getD "")) = ""
    · rw [compileElement_skip parse ci ⟨some t, c, l, al, sp⟩ (by simpa using hc),
        compileElement_skip parse ci ⟨some "paragraph", c, l, al, sp⟩
          (by simpa using hc)]
    · rw [compileElement_text_eq parse ci ⟨some t, c, l, al, sp⟩
          (by simp [h1]) (by simpa using hc),
        compileElement_text_eq parse ci ⟨some "paragraph", c, l, al, sp⟩
          (fun h => absurd (Option.some.inj h) (by decide)) (by simpa using hc)]
      simp [headingNS, h2]

/-- C10 witness: the defaults applied to concrete degenerate elements at
cursor 1. -/
theorem c10_witness :
    compileElement emptyParse 1 ⟨some "paragraph", none, none, none, none⟩ = ([], 1) ∧
    compileElement emptyParse 1 ⟨some "paragraph", some "Hi", none, none, some "huge"⟩ =
      compileElement emptyParse 1
        ⟨some "paragraph", some "Hi", none, some "left", some "huge"⟩ ∧
    paraStyles (compileElement emptyParse 1
        ⟨some "heading", some "Hi", none, none, none⟩).1 =
      [(1, 1 + (replaceNbsp "Hi" ++ "\n").length, some "HEADING_1",
        alignmentField none, spaceBelowField none)] ∧
    spaceBelowField (some "huge") = none ∧
    compileElement emptyParse 1 ⟨some "blockquote", some "Hi", none, none, none⟩ =
      compileElement emptyParse 1 ⟨some "paragraph", some "Hi", none, none, none⟩ := by
  obtain ⟨h1, h2, h3, h4, _, h6⟩ := c10_defaults_total emptyParse 1
  exact ⟨h1 _ rfl, h2 _ _ _ _, h3 "Hi" none none (by decide),
    h4 "huge" (by decide) (by decide) (by decide),
    h6 "blockquote" _ _ _ _ (by decide) (by decide)⟩

/-- C9 counterexample: for the non-last page holding only the `"Hello"`
paragraph starting at cursor 1, the page break is emitted at cursor 8 as
the last command, but the compiler's local cursor stays 8 — it is not
advanced by 1 to 9 as the claim states (lines 291-292 contain no
`current_index` increment). -/
theorem c9_counterexample :
    (compilePage emptyParse 1 [helloElem] false).1.getLast? =
      some (DocCommand.insertPageBreak 8) ∧
    (compilePage emptyParse 1 [helloElem] false).2 = 8 ∧
    (compilePage emptyParse 1 [helloElem] false).2 ≠ 9 := by
  exact ⟨by decide, by decide, by decide⟩

/-- C9 amended: for every non-last page the compiler emits exactly one
insert-page-break command, as the final command of the batch, at the cursor
reached after the page's elements; for the last page none is emitted; the
local cursor is not advanced for the page break — the unconditional
post-batch resync determines the next page's cursor instead. -/
theorem c9_amended_page_break :
    ∀ (parse : String → List Token) (current_index : Nat)
      (elements : List Element),
      (compilePage parse current_index elements false).1 =
        (compilePage parse current_index elements true).1 ++
          [DocCommand.insertPageBreak
            (compilePage parse current_index elements true).2] ∧
      (compilePage parse current_index elements false).2 =
        (compilePage parse current_index elements true).2 ∧
      (compilePage parse current_index elements true).1.countP isPageBreak = 0 ∧
      (compilePage parse current_index elements false).1.countP isPageBreak = 1 := by
  intro parse ci els
  refine ⟨?_, ?_, (compilePage_countPB parse ci els).1,
    (compilePage_countPB parse ci els).2⟩
  · rw [compilePage_batch_false, compilePage_batch_true]
    rfl
  · rw [compilePage_batch_false, compilePage_batch_true]

/-- C6 counterexample: compiling the one-page `"Hello"` document yields a
four-command batch — the claimed three commands plus an
`updateParagraphStyle` with `alignment = START` over `[2, 8)` (the absent
alignment defaults to left, which maps to START and is emitted).  The batch
is therefore not the three-command list the claim describes. -/
theorem c6_counterexample :
    ((compileDoc emptyParse (fun _ => 0) 0 1 pageA).1.map Prod.snd) =
      [[DocCommand.insertText "\n" 1, DocCommand.insertText "Hello\n" 2,
        DocCommand.updateParagraphStyle 2 8 none (some "START") none,
        DocCommand.updateTextStyle 2 8 10]] ∧
    ((compileDoc emptyParse (fun _ => 0) 0 1 pageA).1.map Prod.snd) ≠
      [[DocCommand.insertText "\n" 1, DocCommand.insertText "Hello\n" 2,
        DocCommand.updateTextStyle 2 8 10]] := by
  exact ⟨by decide, by decide⟩

/-- C6 amended: for the one-page document whose single page holds the
paragraph `"Hello"` (no alignment, no spacing), the compiled batch consists
of the mandatory leading newline insert at offset 1, one
insert-text(`"Hello\n"`, 2), one paragraph-style update over `[2, 8)` with
`alignment = START` (emitted because the absent alignment defaults to left,
mapped to START), and one text-style update fixing 10pt over `[2, 8)`; no
insert-page-break is emitted. -/
theorem c6_amended_scenario_a :
    ∀ (parse : String → List Token) (report : Nat → Nat),
      ((compileDoc parse report 0 1 pageA).1.map Prod.snd) =
        [[DocCommand.insertText "\n" 1, DocCommand.insertText "Hello\n" 2,
          DocCommand.updateParagraphStyle 2 8 none (some "START") none,
          DocCommand.updateTextStyle 2 8 10]] := by
  intro parse report
  rfl

/-- C1 counterexample: a two-page document with no table anywhere, compiled
against a driver that reports end offset 42 after every batch.  Page 1's
batch contains no insert-table command and the locally tracked cursor after
page 1 is 8, yet page 2 starts at the driver-reported 42 — the local value
(8, or 9 counting the page break) is not kept: the code re-reads the
driver's end offset after every batch (lines 294-299 are unconditional). -/
theorem c1_counterexample :
    ((compileDoc emptyParse rep42 0 1 pagesNoTable).1.map Prod.fst) = [1, 42] ∧
    (compilePage emptyParse 1 [helloElem] false).1.countP isInsertTable = 0 ∧
    (compilePage emptyParse 1 [helloElem] false).2 = 8 ∧
    (42 : Nat) ≠ 8 ∧ (42 : Nat) ≠ 9 := by
  exact ⟨by decide, by decide, by decide, by decide, by decide⟩

/-- C1 amended: every page's batch is non-empty (it always opens with the
leading newline insert), so after every page the cursor is re-synchronized
from the remote driver's reported end offset — whether or not the batch
contained an insert-table command; the next page's starting cursor is
always the driver's report, never the locally tracked value. -/
theorem c1_amended_resync_every_page :
    (∀ (parse : String → List Token) (current_index : Nat)
        (elements : List Element) (isLast : Bool),
      (compilePage parse current_index elements isLast).1 ≠ []) ∧
    (∀ (parse : String → List Token) (report : Nat → Nat)
        (i current_index : Nat) (page : List Element)
        (rest : List (List Element)), rest ≠ [] →
      ((compileDoc parse report i current_index (page :: rest)).1.map
        Prod.fst).get? 1 = some (report i)) := by
  constructor
  · exact compilePage_ne_nil
  · intro parse report i ci page rest hne
    rcases rest with _ | ⟨q, rest2⟩
    · exact absurd rfl hne
    · have hnil := compilePage_ne_nil parse ci page false
      have hE : (compilePage parse ci page false).1.isEmpty = false := by
        simpa [List.isEmpty_iff] using hnil
      rw [compileDoc_cons]
      simp only [List.isEmpty_cons, hE, List.map_cons]
      rw [compileDoc_cons]
      simp

/-- C1 witness: the amended statement applied to the concrete two-page
no-table document and the driver reporting 42. -/
theorem c1_witness :
    (([[]] : List (List Element)) ≠ []) ∧
    ((compileDoc emptyParse rep42 0 1 ([helloElem] :: [[]])).1.map
      Prod.fst).get? 1 = some (rep42 0) :=
  ⟨by decide,
    c1_amended_resync_every_page.2 emptyParse rep42 0 1 [helloElem] [[]] (by decide)⟩

/-- C5 counterexample: for the two-page no-table document the emitted
commands insert 9 characters in total (leading newlines, `"Hello\n"`, and
one page-break character), but the compiler's locally tracked per-page
cursor advances sum to 8: the code never adds the page break to
`current_index`, so the local advance differs from the external document
length delta. -/
theorem c5_counterexample :
    totalInsertedLen (compileDoc emptyParse (fun _ => 9) 0 1 pagesNoTable).1 = 9 ∧
    (pagesNoTable.map (pageLocalAdvance emptyParse)).sum = 8 ∧
    (pagesNoTable.all fun p => p.all fun e => !(e.type == some "table")) = true := by
  exact ⟨by decide, by decide, by decide⟩

/-- C5 amended: for every document with no table elements, the total number
of characters the emitted commands insert equals the sum of the locally
tracked per-page cursor advances plus one per non-final page — the
page-break characters, which the compiler inserts but never adds to its
local cursor (it relies on the post-batch resync instead).  For a one-page
document the local advance and the external delta coincide. -/
theorem c5_amended_roundtrip :
    ∀ (parse : String → List Token) (report : Nat → Nat)
      (pages : List (List Element)) (i current_index : Nat),
      (∀ p ∈ pages, ∀ e ∈ p, e.type ≠ some "table") → pages ≠ [] →
      totalInsertedLen (compileDoc parse report i current_index pages).1 =
        (pages.map (pageLocalAdvance parse)).sum + (pages.length - 1) := by
  intro parse report pages i ci h hne
  exact compileDoc_insertedLen parse report pages h hne i ci

/-- C5 witness: the amended round-trip equation evaluated on the concrete
two-page no-table document. -/
theorem c5_witness :
    (∀ p ∈ pagesNoTable, ∀ e ∈ p, e.type ≠ some "table") ∧
    pagesNoTable ≠ [] ∧
    totalInsertedLen (compileDoc emptyParse rep42 0 1 pagesNoTable).1 =
      (pagesNoTable.map (pageLocalAdvance emptyParse)).sum +
        (pagesNoTable.length - 1) :=
  ⟨by decide, by decide,
    c5_amended_roundtrip emptyParse rep42 pagesNoTable 0 1 (by decide) (by decide)⟩
